import Mathlib

/-!
Shallow embedding of the isotropic-slicer core
(`src/Python/isotropic_3D_slicer.py`): axis resolution (`parse_axis`),
canonicalization (`canonicalize_preserve_c_side`), Z-resampling
(`resample_z_isotropic`) and the tile exporter (`save_isotropic_slices`).

An n-dimensional numpy array is modelled as a `Tensor`: a shape list plus a
total indexing function on index lists.  Python floats are modelled as `ℚ`
(exact in the regimes the claims quantify over), Python's `round` and
`np.rint` (round half to even) as `pyRound`, and the optional
`scipy.ndimage.zoom` linear engine of Image mode as an opaque
`Option`-valued collaborator.
-/

/-- An n-dimensional array: `shape` is the list of dimension sizes and
`data` gives the element at an index list (total; out-of-range index lists
are irrelevant to every statement below). -/
structure Tensor (α : Type) where
  shape : List ℕ
  data : List ℕ → α

namespace Tensor

/-- The dimensionality of the array, as in numpy. -/
def ndim (t : Tensor α) : ℕ := t.shape.length

/-- Numpy transpose by an axis list: output axis `k` is input axis `perm[k]`,
so the input index at position `p` is the output index at the position
where `perm` holds `p`. -/
def transpose (t : Tensor α) (perm : List ℕ) : Tensor α :=
  { shape := perm.map (fun i => t.shape.getD i 0),
    data := fun ix => t.data ((List.range t.ndim).map (fun p => ix.getD (perm.indexOf p) 0)) }

/-- Fix axis `k` of `arr` at index `i` (e.g. `arr[:, i, :]` for `k = 1`):
axis `k` disappears from the shape and `i` is re-inserted at position `k`
when indexing the source. -/
def fixAxis (t : Tensor α) (k i : ℕ) : Tensor α :=
  { shape := t.shape.eraseIdx k,
    data := fun ix => t.data (ix.insertIdx k i) }

/-- Numpy swapaxes of axes 0 and 1. -/
def swap01 (t : Tensor α) : Tensor α :=
  { shape := match t.shape with | a :: b :: r => b :: a :: r | s => s,
    data := fun ix => t.data (match ix with | a :: b :: r => b :: a :: r | l => l) }

end Tensor

/-- All valid index lists for a shape (row-major enumeration). -/
def allIdx : List ℕ → List (List ℕ)
  | [] => [[]]
  | n :: ns => (List.range n).flatMap (fun i => (allIdx ns).map (fun r => i :: r))

/-- The multiset of element values of a tensor, as a list. -/
def elems (t : Tensor α) : List α := (allIdx t.shape).map t.data

/-- Floor of a rational, written so that it evaluates by kernel reduction
(`Rat.floor_def` equates it with `⌊q⌋`). -/
def ratFloor (q : ℚ) : ℤ := q.num / (q.den : ℤ)

/-- Python 3 `round` / `np.rint` on an exact rational: round half to even. -/
def pyRound (q : ℚ) : ℤ :=
  let f := ratFloor q
  let frac := q - f
  if frac < 1/2 then f
  else if 1/2 < frac then f + 1
  else if f % 2 = 0 then f else f + 1

/-- The mode argument of the resampler: labels or image. -/
inductive Mode | labels | image
deriving DecidableEq

/-- The nearest-neighbour source index for output plane `i`:
`np.clip(np.rint(np.linspace(0, Z-1, newZ)), 0, Z-1)[i]`
(`np.linspace(0, Z-1, 1) = [0]`; otherwise plane `i` sits at
`i * (Z-1) / (newZ-1)`). -/
def srcIndex (Z newZ i : ℕ) : ℕ :=
  (min (max (if newZ ≤ 1 then 0 else pyRound ((i : ℚ) * ((Z : ℚ) - 1) / ((newZ : ℚ) - 1))) 0)
    ((Z : ℤ) - 1)).toNat

/-- The resampler: `newZ = max(1,
round(Z * z_aspect))`; identity when `newZ == Z`; Image mode hands the
volume to the linear `zoom` engine when one is available; Labels mode and
the Image-mode fallback gather whole planes along axis 0 by nearest
neighbour. -/
def resample_z_isotropic (t : Tensor α) (z_aspect : ℚ) (mode : Mode)
    (zoomEngine : Option (Tensor α → ℕ → Tensor α)) : Tensor α :=
  let Z := t.shape.headD 0
  let newZ : ℕ := max 1 (pyRound ((Z : ℚ) * z_aspect)).toNat
  if newZ = Z then t
  else
    match mode, zoomEngine with
    | .image, some zoom => zoom t newZ
    | _, _ =>
      { shape := newZ :: t.shape.tail,
        data := fun ix => t.data (srcIndex Z newZ (ix.headD 0) :: ix.tail) }

/-- The error taxonomy of the core (each `raise ValueError` site, named as
in the specification). -/
inductive Err
  | InvalidAxisSpec
  | DimensionMismatch
  | AxisConflict
  | ChannelBetweenXY
  | InvalidParameter
deriving DecidableEq

/-- Channel placement (`cpos`): `'before'` or `'after'`; `Option CPos`
models the `None | 'before' | 'after'` result. -/
inductive CPos | before | after
deriving DecidableEq

/-- Axis-index normalization (`za = z_axis if z_axis >= 0 else z_axis + ndim` at
the top of `canonicalize_preserve_c_side`), with `toNat` as the ℤ-to-axis
bridge. -/
def normAxis (i : ℤ) (ndim : ℕ) : ℕ := (if 0 ≤ i then i else i + (ndim : ℤ)).toNat

/-- Python `min` over a nonempty list. -/
def listMin (l : List ℕ) : ℕ := l.foldr min (l.headD 0)

/-- Python `max` over a nonempty list. -/
def listMax (l : List ℕ) : ℕ := l.foldr max (l.headD 0)

/-- The list comprehensions `[i for i in range(ndim) if i != za]`, resp.
`[i for i in range(ndim) if i not in (za, ca)]`: the non-Z (non-channel)
axes in their original relative order. -/
def otherAxes (ndim za : ℕ) : Option ℕ → List ℕ
  | none => (List.range ndim).filter (fun i => decide (i ≠ za))
  | some c => (List.range ndim).filter (fun i => decide (i ≠ za) && decide (i ≠ c))

/-- Canonicalization: reorder to
`(Z, Y, X)`, `(Z, C, Y, X)` or `(Z, Y, X, C)` keeping the XY order of the
input, and report the channel placement. -/
def canonicalize_preserve_c_side (t : Tensor α) (z_axis : ℤ) (c_axis : Option ℤ) :
    Except Err (Tensor α × Option CPos) :=
  let ndim := t.ndim
  let za := normAxis z_axis ndim
  match c_axis with
  | none =>
    if ndim ≠ 3 then .error .DimensionMismatch
    else
      let others := otherAxes ndim za none
      .ok (t.transpose (za :: others), none)
  | some cz =>
    let ca := normAxis cz ndim
    if ndim ≠ 4 then .error .DimensionMismatch
    else if za = ca then .error .AxisConflict
    else
      let others := otherAxes ndim za (some ca)
      let y_ax := others.getD 0 0
      let x_ax := others.getD 1 0
      if ca < listMin others then .ok (t.transpose [za, ca, y_ax, x_ax], some .before)
      else if listMax others < ca then .ok (t.transpose [za, y_ax, x_ax, ca], some .after)
      else .error .ChannelBetweenXY

/-- Whitespace characters stripped by Python's `str.strip()` (ASCII
range). -/
def isPySpace (c : Char) : Bool :=
  c = ' ' ∨ c = '\t' ∨ c = '\n' ∨ c = '\r' ∨ c = '\x0B' ∨ c = '\x0C'

/-- ASCII lowercasing of one character (`str.lower()`). -/
def lowerChar (c : Char) : Char :=
  if 'A' ≤ c ∧ c ≤ 'Z' then Char.ofNat (c.toNat + 32) else c

/-- Python token normalization, `s.strip().lower()`, on the character list of a string. -/
def pyStripLower (s : List Char) : List Char :=
  ((s.dropWhile isPySpace).reverse.dropWhile isPySpace).reverse.map lowerChar

/-- The numeric value of a decimal digit character. -/
def charDigit (c : Char) : Option ℕ :=
  if '0' ≤ c ∧ c ≤ '9' then some (c.toNat - 48) else none

/-- A nonempty all-digit character list as a natural number. -/
def digitsToNat (l : List Char) : Option ℕ :=
  if l = [] then none
  else l.foldl (fun acc c =>
    match acc, charDigit c with
    | some a, some d => some (a * 10 + d)
    | _, _ => none) (some 0)

/-- Python `int(s)` on an already-stripped token: optional sign followed by
decimal digits. -/
def parseInt (s : List Char) : Option ℤ :=
  match s with
  | '-' :: rest => (digitsToNat rest).map (fun n => -(n : ℤ))
  | '+' :: rest => (digitsToNat rest).map (fun n => (n : ℤ))
  | _ => (digitsToNat s).map (fun n => (n : ℤ))

/-- The dynamically-typed `ax_str` argument of `parse_axis`: a string
token, an already-numeric axis, or Python `None`. -/
inductive AxArg
  | str (s : String)
  | int (i : ℤ)
  | pyNone

/-- Axis resolution, `parse_axis(ax_str, ndim, allow_none)`: the none-like tokens (when
allowed) resolve to `None`; `'first'/'0'` to `0`; `'last'/'-1'` to
`ndim-1`; any other string is parsed as a signed integer and
bounds-checked against `[-ndim, ndim)`; integer arguments are
bounds-checked the same way. -/
def parse_axis (a : AxArg) (ndim : ℕ) (allow_none : Bool) : Except Err (Option ℤ) :=
  match a with
  | .str s0 =>
    let s := pyStripLower s0.data
    if allow_none = true ∧ (s = "none".data ∨ s = "no".data ∨ s = "disabled".data) then
      .ok none
    else if s = "first".data ∨ s = "0".data then .ok (some 0)
    else if s = "last".data ∨ s = "-1".data then .ok (some ((ndim : ℤ) - 1))
    else
      match parseInt s with
      | some i =>
        if -(ndim : ℤ) ≤ i ∧ i < (ndim : ℤ) then .ok (some i)
        else .error .InvalidAxisSpec
      | none => .error .InvalidAxisSpec
  | .pyNone => if allow_none = true then .ok none else .error .InvalidAxisSpec
  | .int i =>
    if -(ndim : ℤ) ≤ i ∧ i < (ndim : ℤ) then .ok (some i)
    else .error .InvalidAxisSpec

/-- The three export directions. -/
inductive Dir | xy | zx | zy
deriving DecidableEq

/-- One observable action of `save_isotropic_slices`: a tile handed to the
sink (`imwrite`) or a progress notification (`report` /
`progress_cb(done, total, note)`). -/
inductive Ev
  | write (d : Dir) (i : ℕ) (tile : Tensor ℕ)
  | prog (done total : ℕ) (note : String)

/-- The maximum element value of an unsigned-integer tile, as computed by numpy (0 on an empty tile). -/
def tileMax (t : Tensor ℕ) : ℕ := (elems t).foldr max 0

/-- The note string handed to the progress callback: direction name, then a one-based position out of the count. -/
def noteStr (dname : String) (i n : ℕ) : String :=
  dname ++ " " ++ toString (i + 1) ++ "/" ++ toString n

/-- One export loop (`for z in range(Z): ...; report(...)`): for each index,
hand the tile to the sink unless `skip_empty and np.max(tile) == 0`, then
report progress with the incremented running counter. -/
def dirEvents (skip_empty : Bool) (total : ℕ) (d : Dir) (dname : String)
    (count : ℕ) (mk : ℕ → Tensor ℕ) (doneStart : ℕ) : List Ev :=
  (List.range count).flatMap (fun i =>
    (if skip_empty && (tileMax (mk i) == 0) then [] else [Ev.write d i (mk i)]) ++
    [Ev.prog (doneStart + i + 1) total (noteStr dname i count)])

/-- The event trace of `save_isotropic_slices` on an already-resampled
canonical volume: XY tiles (`arr_iso[z]`), then ZX tiles (`arr_iso[:, y, :]`,
with the channel-before transpose `swapaxes(arr_iso[:, :, y, :], 0, 1)` in
a 4-D before-layout), then ZY tiles, with `total = Z + Y + X` and the
shapes destructured as `(Z, Y, X)`, `(Z, C, Y, X)` or `(Z, Y, X, C)`. -/
def save_isotropic_slices_events (arr_iso : Tensor ℕ) (cpos : Option CPos)
    (skip_empty : Bool) : List Ev :=
  if arr_iso.ndim = 3 then
    let Z := arr_iso.shape.getD 0 0
    let Y := arr_iso.shape.getD 1 0
    let X := arr_iso.shape.getD 2 0
    let total := Z + Y + X
    dirEvents skip_empty total .xy ("xy") Z (fun z => arr_iso.fixAxis 0 z) 0 ++
    dirEvents skip_empty total .zx ("zx") Y (fun y => arr_iso.fixAxis 1 y) Z ++
    dirEvents skip_empty total .zy ("zy") X (fun x => arr_iso.fixAxis 2 x) (Z + Y)
  else
    match cpos with
    | some .before =>
      let Z := arr_iso.shape.getD 0 0
      let Y := arr_iso.shape.getD 2 0
      let X := arr_iso.shape.getD 3 0
      let total := Z + Y + X
      dirEvents skip_empty total .xy ("xy") Z (fun z => arr_iso.fixAxis 0 z) 0 ++
      dirEvents skip_empty total .zx ("zx") Y (fun y => (arr_iso.fixAxis 2 y).swap01) Z ++
      dirEvents skip_empty total .zy ("zy") X (fun x => (arr_iso.fixAxis 3 x).swap01) (Z + Y)
    | _ =>
      let Z := arr_iso.shape.getD 0 0
      let Y := arr_iso.shape.getD 1 0
      let X := arr_iso.shape.getD 2 0
      let total := Z + Y + X
      dirEvents skip_empty total .xy ("xy") Z (fun z => arr_iso.fixAxis 0 z) 0 ++
      dirEvents skip_empty total .zx ("zx") Y (fun y => arr_iso.fixAxis 1 y) Z ++
      dirEvents skip_empty total .zy ("zy") X (fun x => arr_iso.fixAxis 2 x) (Z + Y)

/-- The resampled `Z` dimension as destructured by the exporter. -/
def dimZ (v : Tensor ℕ) : ℕ := v.shape.getD 0 0

/-- The resampled `Y` dimension as destructured by the exporter. -/
def dimY (v : Tensor ℕ) (cpos : Option CPos) : ℕ :=
  if v.ndim ≠ 3 ∧ cpos = some .before then v.shape.getD 2 0 else v.shape.getD 1 0

/-- The resampled `X` dimension as destructured by the exporter. -/
def dimX (v : Tensor ℕ) (cpos : Option CPos) : ℕ :=
  if v.ndim ≠ 3 ∧ cpos = some .before then v.shape.getD 3 0 else v.shape.getD 2 0

/-- Project a progress event to `(done, total)`. -/
def progOf : Ev → Option (ℕ × ℕ)
  | .prog d t _ => some (d, t)
  | _ => none

/-- Project a sink write to its direction and index. -/
def writeDirIdx : Ev → Option (Dir × ℕ)
  | .write d i _ => some (d, i)
  | _ => none

/-- Project a sink write to direction, index and tile. -/
def writeRec : Ev → Option (Dir × ℕ × Tensor ℕ)
  | .write d i t => some (d, i, t)
  | _ => none

/-- The labels-mode mask suffix stripped from the output base directory. -/
def cp_mask_sfx : String := "_cp_masks"

/-- Python suffix test, as in the endswith method. -/
def pyEndsWith (s sfx : String) : Bool :=
  sfx.data == s.data.drop (s.data.length - sfx.data.length)

/-- Python slicing that removes the last `n` characters of a string. -/
def stripLen (s : String) (n : ℕ) : String := ⟨s.data.take (s.data.length - n)⟩

/-- The directory-name stem: in labels mode the `_cp_masks` suffix is
stripped when present (`image_stem`); otherwise the stem is unchanged. -/
def out_base_stem (stem : String) (mode : Mode) : String :=
  match mode with
  | .labels =>
    if pyEndsWith stem cp_mask_sfx then stripLen stem cp_mask_sfx.data.length else stem
  | .image => stem

/-- The zero-padded 4-digit index used in every tile filename. -/
def pad4 (i : ℕ) : String :=
  String.mk (List.replicate (4 - (toString i).length) '0') ++ toString i

/-- A tile filename: stem, underscore, direction name, underscore, padded index, and the tif extension (always the full stem). -/
def tile_file_name (stem dname : String) (i : ℕ) : String :=
  stem ++ "_" ++ dname ++ "_" ++ pad4 i ++ ".tif"

/-- The full path handed to `imwrite`:
`out_dir / out_base_stem / dname / tile_file_name`. -/
def tile_path (out_dir stem : String) (mode : Mode) (dname : String) (i : ℕ) : String :=
  out_dir ++ "/" ++ out_base_stem stem mode ++ "/" ++ dname ++ "/"
    ++ tile_file_name stem dname i

theorem ratFloor_eq_floor (q : ℚ) : ratFloor q = ⌊q⌋ := by
  rw [Rat.floor_def]; rfl

theorem resample_eq_id {α : Type} (t : Tensor α) (a : ℚ) (m : Mode)
    (e : Option (Tensor α → ℕ → Tensor α))
    (heq : max 1 (pyRound ((t.shape.headD 0 : ℚ) * a)).toNat = t.shape.headD 0) :
    resample_z_isotropic t a m e = t := by
  unfold resample_z_isotropic
  rw [if_pos heq]

theorem resample_eq_NN {α : Type} (t : Tensor α) (a : ℚ) (m : Mode)
    (e : Option (Tensor α → ℕ → Tensor α)) (hm : m = .labels ∨ e = none)
    (hne : max 1 (pyRound ((t.shape.headD 0 : ℚ) * a)).toNat ≠ t.shape.headD 0) :
    resample_z_isotropic t a m e =
      ⟨(max 1 (pyRound ((t.shape.headD 0 : ℚ) * a)).toNat) :: t.shape.tail,
        fun ix => t.data
          (srcIndex (t.shape.headD 0) (max 1 (pyRound ((t.shape.headD 0 : ℚ) * a)).toNat)
            (ix.headD 0) :: ix.tail)⟩ := by
  unfold resample_z_isotropic
  rw [if_neg hne]
  rcases hm with rfl | rfl
  · cases e <;> rfl
  · cases m <;> rfl

theorem pyRound_eq (q : ℚ) :
    pyRound q = if q - ⌊q⌋ < 1/2 then ⌊q⌋
      else if 1/2 < q - ⌊q⌋ then ⌊q⌋ + 1
      else if ⌊q⌋ % 2 = 0 then ⌊q⌋ else ⌊q⌋ + 1 := by
  unfold pyRound
  rw [ratFloor_eq_floor]

theorem pyRound_intCast (n : ℤ) : pyRound (n : ℚ) = n := by
  rw [pyRound_eq, Int.floor_intCast]
  norm_num

theorem pyRound_nonpos {q : ℚ} (h : q ≤ 0) : pyRound q ≤ 0 := by
  rw [pyRound_eq]
  have hf : ⌊q⌋ ≤ 0 := by
    have := Int.floor_le_floor (α := ℚ) h
    simpa using this
  rcases lt_or_eq_of_le hf with hlt | heq
  · split_ifs <;> omega
  · have hq : q - (⌊q⌋ : ℚ) < 1/2 := by
      rw [heq]
      push_cast
      nlinarith [h]
    rw [if_pos hq]
    omega

theorem Tensor.ext' {α : Type} {t u : Tensor α} (hs : t.shape = u.shape)
    (hd : t.data = u.data) : t = u := by
  cases t; cases u; cases hs; cases hd; rfl

theorem mem_allIdx_cons {n : ℕ} {ns : List ℕ} {l : List ℕ} :
    l ∈ allIdx (n :: ns) ↔ ∃ i r, i < n ∧ r ∈ allIdx ns ∧ l = i :: r := by
  simp only [allIdx, List.mem_flatMap, List.mem_map, List.mem_range]
  constructor
  · rintro ⟨i, hi, r, hr, rfl⟩
    exact ⟨i, r, hi, hr, rfl⟩
  · rintro ⟨i, r, hi, hr, rfl⟩
    exact ⟨i, hi, r, hr, rfl⟩

theorem srcIndex_lt {Z : ℕ} (hZ : 0 < Z) (newZ i : ℕ) : srcIndex Z newZ i < Z := by
  unfold srcIndex
  have h1 : min (max (if newZ ≤ 1 then 0
        else pyRound ((i : ℚ) * ((Z : ℚ) - 1) / ((newZ : ℚ) - 1))) 0) ((Z : ℤ) - 1)
      ≤ (Z : ℤ) - 1 := min_le_right _ _
  omega

theorem srcIndex_one {Z : ℕ} (hZ : 0 < Z) (i : ℕ) : srcIndex Z 1 i = 0 := by
  unfold srcIndex
  rw [if_pos (le_refl 1), max_self, min_eq_left (by omega : (0 : ℤ) ≤ (Z : ℤ) - 1)]
  rfl

theorem resample_nonpos_aux {α : Type} (t : Tensor α) (a : ℚ) (m : Mode)
    (e : Option (Tensor α → ℕ → Tensor α)) (hm : m = .labels ∨ e = none)
    (hZ : 2 ≤ t.shape.headD 0)
    (hr : pyRound ((t.shape.headD 0 : ℚ) * a) ≤ 0) :
    resample_z_isotropic t a m e = ⟨1 :: t.shape.tail, fun ix => t.data (0 :: ix.tail)⟩ := by
  have hmax : max 1 (pyRound ((t.shape.headD 0 : ℚ) * a)).toNat = 1 := by omega
  rw [resample_eq_NN t a m e hm (by omega)]
  apply Tensor.ext'
  · rw [hmax]
  · funext ix
    simp only [hmax, srcIndex_one (by omega : 0 < t.shape.headD 0)]

/-- C2: for every canonical volume with a positive Z size, every mode and
every optional linear engine, resampling with `aspect = 1` returns the
input volume unchanged; more generally, whenever
`newZ = max 1 (round (Z * aspect))` equals the current Z size, the very
same input volume is returned. -/
theorem resample_aspect_one_identity {α : Type} (t : Tensor α) (a : ℚ) (m : Mode)
    (e : Option (Tensor α → ℕ → Tensor α)) (hZ : 0 < t.shape.headD 0) :
    (a = 1 → resample_z_isotropic t a m e = t) ∧
    (max 1 (pyRound ((t.shape.headD 0 : ℚ) * a)).toNat = t.shape.headD 0 →
      resample_z_isotropic t a m e = t) := by
  constructor
  · rintro rfl
    apply resample_eq_id
    have h1 : ((t.shape.headD 0 : ℚ) * 1) = (((t.shape.headD 0 : ℕ) : ℤ) : ℚ) := by
      push_cast
      ring
    rw [h1, pyRound_intCast]
    omega
  · exact resample_eq_id t a m e

theorem resample_aspect_one_identity_witness :
    0 < (Tensor.shape (α := ℕ) ⟨[3, 2], fun _ => 0⟩).headD 0 ∧
    resample_z_isotropic (⟨[3, 2], fun _ => 0⟩ : Tensor ℕ) 1 Mode.labels Option.none
      = ⟨[3, 2], fun _ => 0⟩ :=
  ⟨by decide,
    (resample_aspect_one_identity (⟨[3, 2], fun _ => 0⟩ : Tensor ℕ) 1 Mode.labels
      Option.none (by decide)).1 rfl⟩

/-- C1: in Labels mode (and in Image mode with no linear engine, the
fallback), every Z-plane of the resampled volume is an exact copy of some
Z-plane of the input, and the set of element values of the output is a
subset of the input's: no new values ever appear. -/
theorem resample_NN_plane_copies_value_subset {α : Type} (t : Tensor α) (a : ℚ)
    (m : Mode) (e : Option (Tensor α → ℕ → Tensor α))
    (hm : m = .labels ∨ e = none) (hZ : 0 < t.shape.headD 0) :
    (∀ z, z < (resample_z_isotropic t a m e).shape.headD 0 →
        ∃ zsrc, zsrc < t.shape.headD 0 ∧
          (resample_z_isotropic t a m e).fixAxis 0 z = t.fixAxis 0 zsrc) ∧
    (∀ v, v ∈ elems (resample_z_isotropic t a m e) → v ∈ elems t) := by
  obtain ⟨Z, rest, hsh⟩ : ∃ Z rest, t.shape = Z :: rest := by
    rcases h : t.shape with _ | ⟨Z, rest⟩
    · rw [h] at hZ
      simp at hZ
    · exact ⟨Z, rest, rfl⟩
  by_cases hid : max 1 (pyRound ((t.shape.headD 0 : ℚ) * a)).toNat = t.shape.headD 0
  · rw [resample_eq_id t a m e hid]
    exact ⟨fun z hz => ⟨z, hz, rfl⟩, fun v hv => hv⟩
  · rw [resample_eq_NN t a m e hm hid]
    constructor
    · intro z _
      refine ⟨srcIndex (t.shape.headD 0)
        (max 1 (pyRound ((t.shape.headD 0 : ℚ) * a)).toNat) z, srcIndex_lt hZ _ _, ?_⟩
      apply Tensor.ext'
      · simp [Tensor.fixAxis, hsh]
      · funext ix
        simp only [Tensor.fixAxis, List.insertIdx_zero, List.headD_cons, List.tail_cons]
    · intro v hv
      simp only [elems, List.mem_map] at hv ⊢
      obtain ⟨ix, hix, rfl⟩ := hv
      rw [mem_allIdx_cons] at hix
      obtain ⟨i, r, hi, hr, rfl⟩ := hix
      refine ⟨srcIndex (t.shape.headD 0)
        (max 1 (pyRound ((t.shape.headD 0 : ℚ) * a)).toNat) i :: r, ?_, rfl⟩
      rw [hsh, mem_allIdx_cons]
      refine ⟨_, r, ?_, ?_, rfl⟩
      · have := srcIndex_lt hZ (max 1 (pyRound ((t.shape.headD 0 : ℚ) * a)).toNat) i
        rw [hsh] at this
        simpa using this
      · rw [hsh] at hr
        exact hr

theorem resample_NN_plane_copies_value_subset_witness :
    (∀ z, z < (resample_z_isotropic (⟨[2, 2], fun ix => ix.headD 0⟩ : Tensor ℕ) 2
          Mode.labels Option.none).shape.headD 0 →
        ∃ zsrc, zsrc < (Tensor.shape (α := ℕ) ⟨[2, 2], fun ix => ix.headD 0⟩).headD 0 ∧
          (resample_z_isotropic (⟨[2, 2], fun ix => ix.headD 0⟩ : Tensor ℕ) 2
              Mode.labels Option.none).fixAxis 0 z
            = Tensor.fixAxis ⟨[2, 2], fun ix => ix.headD 0⟩ 0 zsrc) ∧
    (∀ v, v ∈ elems (resample_z_isotropic (⟨[2, 2], fun ix => ix.headD 0⟩ : Tensor ℕ) 2
        Mode.labels Option.none) →
      v ∈ elems (⟨[2, 2], fun ix => ix.headD 0⟩ : Tensor ℕ)) :=
  resample_NN_plane_copies_value_subset (⟨[2, 2], fun ix => ix.headD 0⟩ : Tensor ℕ) 2
    Mode.labels Option.none (Or.inl rfl) (by decide)

/-- C9: in Labels mode, for a canonical volume with `Z ≥ 2` and any aspect
with `round (Z * aspect) ≤ 0` (in particular any `aspect ≤ 0`), the
resampler raises nothing and returns a volume whose Z size is exactly 1,
whose single Z-plane is the input's plane 0, with all other dimensions
unchanged. -/
theorem resample_labels_collapse {α : Type} (t : Tensor α) (a : ℚ)
    (e : Option (Tensor α → ℕ → Tensor α)) (hZ : 2 ≤ t.shape.headD 0)
    (hr : pyRound ((t.shape.headD 0 : ℚ) * a) ≤ 0) :
    (resample_z_isotropic t a .labels e).shape = 1 :: t.shape.tail ∧
    (resample_z_isotropic t a .labels e).fixAxis 0 0 = t.fixAxis 0 0 := by
  rw [resample_nonpos_aux t a .labels e (Or.inl rfl) hZ hr]
  refine ⟨rfl, ?_⟩
  apply Tensor.ext'
  · rcases hsh : t.shape with _ | ⟨z, rest⟩
    · rw [hsh] at hZ
      simp at hZ
    · simp [Tensor.fixAxis, hsh]
  · funext ix
    simp only [Tensor.fixAxis, List.insertIdx_zero, List.tail_cons]

theorem resample_labels_collapse_witness :
    2 ≤ (Tensor.shape (α := ℕ) ⟨[3, 1, 1], fun ix => ix.headD 0⟩).headD 0 ∧
    (resample_z_isotropic (⟨[3, 1, 1], fun ix => ix.headD 0⟩ : Tensor ℕ) 0
        Mode.labels Option.none).shape = 1 :: [1, 1] ∧
    (resample_z_isotropic (⟨[3, 1, 1], fun ix => ix.headD 0⟩ : Tensor ℕ) 0
        Mode.labels Option.none).fixAxis 0 0
      = Tensor.fixAxis ⟨[3, 1, 1], fun ix => ix.headD 0⟩ 0 0 :=
  ⟨by decide,
    resample_labels_collapse (⟨[3, 1, 1], fun ix => ix.headD 0⟩ : Tensor ℕ) 0
      Option.none (by decide)
      (by
        rw [mul_zero]
        have h := pyRound_intCast 0
        push_cast at h
        omega)⟩

/-- C4 counterexample: `resample_z_isotropic` performs no aspect
validation: called with `aspect = 0 ≤ 0` on a volume with `Z = 2` it does
not fail, it proceeds and returns a resampled volume of Z size 1. -/
theorem resample_no_invalid_parameter_counterexample :
    (resample_z_isotropic (⟨[2, 1, 1], fun _ => 0⟩ : Tensor ℕ) 0
        Mode.labels Option.none).shape = [1, 1, 1] := by
  rw [resample_nonpos_aux (⟨[2, 1, 1], fun _ => 0⟩ : Tensor ℕ) 0 Mode.labels
    Option.none (Or.inl rfl) (by decide)
    (by
      rw [mul_zero]
      have h := pyRound_intCast 0
      push_cast at h
      omega)]
  rfl

/-- C4 amended: the resampler never rejects a non-positive aspect; for
`aspect ≤ 0` (Labels mode or the Image-mode fallback) it proceeds and
returns a volume whose Z size is `max 1 (round (Z * aspect)) = 1`, all
other dimensions unchanged. -/
theorem resample_accepts_nonpositive_aspect {α : Type} (t : Tensor α) (a : ℚ)
    (m : Mode) (e : Option (Tensor α → ℕ → Tensor α)) (hZ : 0 < t.shape.headD 0)
    (ha : a ≤ 0) (hm : m = .labels ∨ e = none) :
    (resample_z_isotropic t a m e).shape = 1 :: t.shape.tail := by
  have hx : (0 : ℚ) ≤ (t.shape.headD 0 : ℚ) := Nat.cast_nonneg _
  have hr : pyRound ((t.shape.headD 0 : ℚ) * a) ≤ 0 :=
    pyRound_nonpos (by nlinarith)
  rcases Nat.lt_or_ge (t.shape.headD 0) 2 with h2 | h2
  · have hZ1 : t.shape.headD 0 = 1 := by omega
    have hid : max 1 (pyRound ((t.shape.headD 0 : ℚ) * a)).toNat = t.shape.headD 0 := by
      omega
    rw [resample_eq_id t a m e hid]
    rcases hsh : t.shape with _ | ⟨z, rest⟩
    · rw [hsh] at hZ1
      simp at hZ1
    · rw [hsh] at hZ1
      simp only [List.headD_cons] at hZ1
      rw [hZ1]
      rfl
  · rw [resample_nonpos_aux t a m e hm h2 hr]

theorem resample_accepts_nonpositive_aspect_witness :
    (resample_z_isotropic (⟨[4, 2, 2], fun ix => ix.headD 0⟩ : Tensor ℕ) (-3)
        Mode.image Option.none).shape
      = 1 :: [2, 2] :=
  resample_accepts_nonpositive_aspect (⟨[4, 2, 2], fun ix => ix.headD 0⟩ : Tensor ℕ)
    (-3) Mode.image Option.none (by decide) (by norm_num) (Or.inr rfl)

/-- C5: axis resolution maps `'first'` to 0 and `'last'` to `ndim - 1`; an
integer token is accepted exactly when it lies in `[-ndim, ndim)` (the
canonicalizer then normalizes a negative `i` to `i + ndim`, landing in
`[0, ndim)`), and is rejected with `InvalidAxisSpec` otherwise;
`'none'`-equivalent tokens resolve to `None` exactly when `allow_none` is
set and are an `InvalidAxisSpec` error otherwise; an unparsable token is
an `InvalidAxisSpec` error. -/
theorem parse_axis_resolution (ndim : ℕ) (an : Bool) (hnd : 1 ≤ ndim) :
    parse_axis (.str ("first")) ndim an = .ok (some 0) ∧
    parse_axis (.str ("last")) ndim an = .ok (some ((ndim : ℤ) - 1)) ∧
    (∀ i : ℤ, -(ndim : ℤ) ≤ i → i < (ndim : ℤ) →
      parse_axis (.int i) ndim an = .ok (some i) ∧
      (normAxis i ndim : ℤ) = (if 0 ≤ i then i else i + (ndim : ℤ)) ∧
      normAxis i ndim < ndim) ∧
    (∀ i : ℤ, i < -(ndim : ℤ) ∨ (ndim : ℤ) ≤ i →
      parse_axis (.int i) ndim an = .error .InvalidAxisSpec) ∧
    (∀ s : String, s = "none" ∨ s = "no" ∨ s = "disabled" →
      parse_axis (.str s) ndim true = .ok none ∧
      parse_axis (.str s) ndim false = .error .InvalidAxisSpec) ∧
    (∀ s : String, parseInt (pyStripLower s.data) = none →
      pyStripLower s.data ∉ (["none".data, "no".data, "disabled".data, "first".data,
        "0".data, "last".data, "-1".data] : List (List Char)) →
      parse_axis (.str s) ndim an = .error .InvalidAxisSpec) := by
  have hnone1 : ¬(pyStripLower ("first".data) = "none".data ∨
      pyStripLower ("first".data) = "no".data ∨
      pyStripLower ("first".data) = "disabled".data) := by decide
  have hnone2 : ¬(pyStripLower ("last".data) = "none".data ∨
      pyStripLower ("last".data) = "no".data ∨
      pyStripLower ("last".data) = "disabled".data) := by decide
  refine ⟨?_, ?_, ?_, ?_, ?_, ?_⟩
  · simp only [parse_axis]
    rw [if_neg (fun h => absurd h.2 hnone1), if_pos (by decide)]
  · simp only [parse_axis]
    rw [if_neg (fun h => absurd h.2 hnone2), if_neg (by decide), if_pos (by decide)]
  · intro i h1 h2
    refine ⟨?_, ?_, ?_⟩
    · simp only [parse_axis]
      rw [if_pos ⟨h1, h2⟩]
    · unfold normAxis
      split <;> omega
    · unfold normAxis
      split <;> omega
  · intro i hi
    simp only [parse_axis]
    rw [if_neg (by omega)]
  · rintro s (rfl | rfl | rfl) <;>
      refine ⟨?_, ?_⟩ <;> simp only [parse_axis] <;>
        first
          | rw [if_pos (by decide)]
          | (rw [if_neg (by decide), if_neg (by decide), if_neg (by decide)]; rfl)
  · intro s hparse hmem
    simp only [parse_axis]
    rw [if_neg ?h1, if_neg ?h2, if_neg ?h3, hparse]
    case h1 =>
      rintro ⟨-, h | h | h⟩ <;> simp [h] at hmem
    case h2 =>
      rintro (h | h) <;> simp [h] at hmem
    case h3 =>
      rintro (h | h) <;> simp [h] at hmem

theorem parse_axis_resolution_witness :
    parse_axis (.str ("first")) 3 false = .ok (some 0) ∧
    parse_axis (.str ("last")) 3 false = .ok (some ((3 : ℤ) - 1)) ∧
    (∀ i : ℤ, -(3 : ℤ) ≤ i → i < (3 : ℤ) →
      parse_axis (.int i) 3 false = .ok (some i) ∧
      (normAxis i 3 : ℤ) = (if 0 ≤ i then i else i + (3 : ℤ)) ∧
      normAxis i 3 < 3) ∧
    (∀ i : ℤ, i < -(3 : ℤ) ∨ (3 : ℤ) ≤ i →
      parse_axis (.int i) 3 false = .error .InvalidAxisSpec) ∧
    (∀ s : String, s = "none" ∨ s = "no" ∨ s = "disabled" →
      parse_axis (.str s) 3 true = .ok none ∧
      parse_axis (.str s) 3 false = .error .InvalidAxisSpec) ∧
    (∀ s : String, parseInt (pyStripLower s.data) = none →
      pyStripLower s.data ∉ (["none".data, "no".data, "disabled".data, "first".data,
        "0".data, "last".data, "-1".data] : List (List Char)) →
      parse_axis (.str s) 3 false = .error .InvalidAxisSpec) :=
  parse_axis_resolution 3 false (by decide)

/-- C3: for a 4-dimensional input with distinct resolved Z and channel
indices, if the channel axis lies strictly between the two remaining
spatial axes (in original order), canonicalization fails with
`ChannelBetweenXY` — never a silent reinterpretation. -/
theorem canonicalize_channel_between_fails {α : Type} (t : Tensor α) (za ca : ℕ)
    (hlen : t.shape.length = 4) (hza : za < 4) (hca : ca < 4) (hne : za ≠ ca)
    (hbet : (otherAxes 4 za (some ca)).getD 0 0 < ca ∧
      ca < (otherAxes 4 za (some ca)).getD 1 0) :
    canonicalize_preserve_c_side t (za : ℤ) (some (ca : ℤ)) = .error .ChannelBetweenXY := by
  have hnd : t.ndim = 4 := hlen
  have hz : normAxis (za : ℤ) 4 = za := by
    unfold normAxis
    rw [if_pos (by omega)]
    omega
  have hc : normAxis (ca : ℤ) 4 = ca := by
    unfold normAxis
    rw [if_pos (by omega)]
    omega
  simp only [canonicalize_preserve_c_side, hnd, hz, hc]
  interval_cases za <;> interval_cases ca <;>
    first
      | exact absurd rfl hne
      | exact absurd hbet (by decide)
      | rw [if_neg (by decide), if_neg (by decide), if_neg (by decide), if_neg (by decide)]

theorem canonicalize_channel_between_fails_witness :
    canonicalize_preserve_c_side (⟨[4, 5, 6, 3], fun _ => 0⟩ : Tensor ℕ) (0 : ℤ)
      (some (2 : ℤ)) = .error .ChannelBetweenXY :=
  canonicalize_channel_between_fails (⟨[4, 5, 6, 3], fun _ => 0⟩ : Tensor ℕ) 0 2
    (by decide) (by decide) (by decide) (by decide) (by decide)

theorem map_getD_range {α : Type} (l : List α) (d : α) :
    (List.range l.length).map (fun i => l.getD i d) = l := by
  induction l with
  | nil => rfl
  | cons a l ih =>
    rw [List.length_cons, List.range_succ_eq_map, List.map_cons, List.map_map]
    have hfun : ((fun i => (a :: l).getD i d) ∘ Nat.succ) = (fun i => l.getD i d) := by
      funext i
      rfl
    rw [hfun, ih]
    rfl

theorem transpose_shape_prod {α : Type} (t : Tensor α) (p : List ℕ)
    (hp : p.Perm (List.range t.ndim)) :
    (t.transpose p).shape.prod = t.shape.prod := by
  show (p.map (fun i => t.shape.getD i 0)).prod = _
  rw [(hp.map (fun i => t.shape.getD i 0)).prod_eq]
  rw [show List.range t.ndim = List.range t.shape.length from rfl, map_getD_range]

/-- C6: for every valid input (in-range axis arguments), a successful
canonicalization preserves the total element count; in the no-channel
(3-D) case the output's axis-0 size equals the input's resolved Z-axis
size; and the output is a transposition by a permutation of the axes in
which the two non-Z non-channel axes keep the relative order they had in
the input. -/
theorem canonicalize_preserves_count_and_order {α : Type} (t : Tensor α) (z : ℤ)
    (c : Option ℤ) (t2 : Tensor α) (cp : Option CPos)
    (hzb : -(t.ndim : ℤ) ≤ z ∧ z < (t.ndim : ℤ))
    (hcb : ∀ cv, c = some cv → -(t.ndim : ℤ) ≤ cv ∧ cv < (t.ndim : ℤ))
    (h : canonicalize_preserve_c_side t z c = .ok (t2, cp)) :
    t2.shape.prod = t.shape.prod ∧
    (c = none → t2.shape.headD 0 = t.shape.getD (normAxis z t.ndim) 0) ∧
    ∃ perm : List ℕ, t2 = t.transpose perm ∧ perm.Perm (List.range t.ndim) ∧
      (otherAxes t.ndim (normAxis z t.ndim)
        (c.map (fun cv => normAxis cv t.ndim))).Sublist perm := by
  cases c with
  | none =>
    simp only [canonicalize_preserve_c_side] at h
    by_cases h3 : t.ndim = 3
    · rw [if_neg (not_not_intro h3)] at h
      simp only [Except.ok.injEq, Prod.mk.injEq] at h
      obtain ⟨ht2, -⟩ := h
      have hza : normAxis z t.ndim < 3 := by
        unfold normAxis
        split <;> omega
      rw [h3] at ht2 hza ⊢
      simp only [Option.map_none']
      set za := normAxis z 3 with hzd
      interval_cases za <;>
        (refine ⟨?_, fun hh => ?_, _, ht2.symm, by decide, by decide⟩
         · rw [← ht2]
           exact transpose_shape_prod t _ (by rw [h3]; decide)
         · rw [← ht2]
           simp [Tensor.transpose])
    · rw [if_pos h3] at h
      exact absurd h (by simp)
  | some cv =>
    have hcvb := hcb cv rfl
    simp only [canonicalize_preserve_c_side] at h
    by_cases h4 : t.ndim = 4
    · rw [if_neg (not_not_intro h4)] at h
      have hza : normAxis z t.ndim < 4 := by
        unfold normAxis
        split <;> omega
      have hca : normAxis cv t.ndim < 4 := by
        unfold normAxis
        split <;> omega
      rw [h4] at h hza hca ⊢
      simp only [Option.map_some']
      set za := normAxis z 4 with hzd
      set ca := normAxis cv 4 with hcd
      interval_cases za <;> interval_cases ca <;>
        first
          | (rw [if_pos rfl] at h
             exact absurd h (by simp))
          | (rw [if_neg (by decide)] at h
             first
               | rw [if_pos (by decide)] at h
               | rw [if_neg (by decide), if_pos (by decide)] at h
             simp only [Except.ok.injEq, Prod.mk.injEq] at h
             obtain ⟨ht2, -⟩ := h
             refine ⟨?_, fun hh => absurd hh (Option.some_ne_none _), _, ht2.symm,
               by decide, by decide⟩
             rw [← ht2]
             exact transpose_shape_prod t _ (by rw [h4]; decide))
          | (rw [if_neg (by decide), if_neg (by decide), if_neg (by decide)] at h
             exact absurd h (by simp))
    · rw [if_pos h4] at h
      exact absurd h (by simp)

theorem canonicalize_preserves_count_and_order_witness :
    ((⟨[5, 3, 4, 6], fun _ => 0⟩ : Tensor ℕ).transpose [0, 1, 2, 3]).shape.prod
        = ([5, 3, 4, 6] : List ℕ).prod ∧
    ((some 1 : Option ℤ) = none →
      ((⟨[5, 3, 4, 6], fun _ => 0⟩ : Tensor ℕ).transpose [0, 1, 2, 3]).shape.headD 0
        = ([5, 3, 4, 6] : List ℕ).getD (normAxis 0 4) 0) ∧
    ∃ perm : List ℕ,
      (⟨[5, 3, 4, 6], fun _ => 0⟩ : Tensor ℕ).transpose [0, 1, 2, 3]
          = (⟨[5, 3, 4, 6], fun _ => 0⟩ : Tensor ℕ).transpose perm ∧
      perm.Perm (List.range 4) ∧
      (otherAxes 4 (normAxis 0 4)
        ((some (1 : ℤ)).map (fun cv => normAxis cv 4))).Sublist perm :=
  canonicalize_preserves_count_and_order (⟨[5, 3, 4, 6], fun _ => 0⟩ : Tensor ℕ) 0
    (some 1) ((⟨[5, 3, 4, 6], fun _ => 0⟩ : Tensor ℕ).transpose [0, 1, 2, 3])
    (some .before) ⟨by decide, by decide⟩
    (fun cv hcv => by
      cases hcv
      exact ⟨by decide, by decide⟩)
    rfl

theorem filterMap_flatMap' {β γ δ : Type} (l : List β) (f : β → List γ)
    (g : γ → Option δ) :
    (l.flatMap f).filterMap g = l.flatMap (fun b => (f b).filterMap g) := by
  induction l with
  | nil => rfl
  | cons a l ih => simp [List.flatMap_cons, List.filterMap_append, ih]

theorem flatMap_singleton' {β γ : Type} (l : List β) (f : β → γ) :
    (l.flatMap fun b => [f b]) = l.map f := by
  induction l with
  | nil => rfl
  | cons a l ih => simp [List.flatMap_cons, ih]

theorem progOf_dirEvents (sk : Bool) (total : ℕ) (d : Dir) (dn : String)
    (count : ℕ) (mk : ℕ → Tensor ℕ) (ds : ℕ) :
    (dirEvents sk total d dn count mk ds).filterMap progOf
      = (List.range count).map (fun i => (ds + i + 1, total)) := by
  unfold dirEvents
  rw [filterMap_flatMap']
  have h : ∀ i, ((if sk && (tileMax (mk i) == 0) then [] else [Ev.write d i (mk i)]) ++
      [Ev.prog (ds + i + 1) total (noteStr dn i count)]).filterMap progOf
      = [(ds + i + 1, total)] := by
    intro i
    split <;> simp [progOf]
  simp only [h]
  exact flatMap_singleton' _ _

theorem writeDirIdx_dirEvents_false (total : ℕ) (d : Dir) (dn : String)
    (count : ℕ) (mk : ℕ → Tensor ℕ) (ds : ℕ) :
    (dirEvents false total d dn count mk ds).filterMap writeDirIdx
      = (List.range count).map (fun i => (d, i)) := by
  unfold dirEvents
  rw [filterMap_flatMap']
  have h : ∀ i, ((if false && (tileMax (mk i) == 0) then [] else [Ev.write d i (mk i)]) ++
      [Ev.prog (ds + i + 1) total (noteStr dn i count)]).filterMap writeDirIdx
      = [(d, i)] := by
    intro i
    simp [writeDirIdx, progOf]
  simp only [h]
  exact flatMap_singleton' _ _

theorem writeRec_dirEvents (sk : Bool) (total : ℕ) (d : Dir) (dn : String)
    (count : ℕ) (mk : ℕ → Tensor ℕ) (ds : ℕ) :
    (dirEvents sk total d dn count mk ds).filterMap writeRec
      = ((List.range count).map (fun i => (d, i, mk i))).filter
          (fun e => !(sk && (tileMax e.2.2 == 0))) := by
  unfold dirEvents
  rw [filterMap_flatMap']
  induction List.range count with
  | nil => rfl
  | cons a l ih =>
    rw [List.flatMap_cons, List.map_cons, List.filterMap_append, List.filter_cons, ih]
    by_cases hc : (sk && (tileMax (mk a) == 0)) = true
    · rw [if_pos hc]
      simp [hc, writeRec]
    · rw [if_neg hc]
      simp only [Bool.not_eq_true] at hc
      simp [hc, writeRec]

theorem tri_range_map {γ : Type} (Z Y X : ℕ) (g : ℕ → γ) :
    (List.range Z).map (fun i => g (0 + i + 1))
      ++ (List.range Y).map (fun i => g (Z + i + 1))
      ++ (List.range X).map (fun i => g (Z + Y + i + 1))
      = (List.range (Z + Y + X)).map (fun k => g (k + 1)) := by
  rw [List.range_add, List.map_append, List.range_add, List.map_append,
    List.map_map, List.map_map]
  have h1 : ((fun k => g (k + 1)) ∘ fun x => Z + x) = fun i => g (Z + i + 1) := rfl
  have h2 : ((fun k => g (k + 1)) ∘ fun x => Z + Y + x) = fun i => g (Z + Y + i + 1) := rfl
  have h3 : (fun k : ℕ => g (k + 1)) = fun i => g (0 + i + 1) := by
    funext i
    rw [Nat.zero_add]
  rw [h1, h2, h3]

/-- C7: with `skip_empty = false` the exporter hands the sink exactly
`Z + Y + X` tiles, in deterministic order: all XY tiles `0..Z-1`
ascending, then all ZX tiles `0..Y-1`, then all ZY tiles `0..X-1` (so
`XY count = Z`, `ZX count = Y`, `ZY count = X`). -/
theorem export_tile_counts_and_order (v : Tensor ℕ) (cpos : Option CPos) :
    (save_isotropic_slices_events v cpos false).filterMap writeDirIdx
      = (List.range (dimZ v)).map (fun z => (Dir.xy, z))
        ++ (List.range (dimY v cpos)).map (fun y => (Dir.zx, y))
        ++ (List.range (dimX v cpos)).map (fun x => (Dir.zy, x)) ∧
    ((save_isotropic_slices_events v cpos false).filterMap writeDirIdx).length
      = dimZ v + dimY v cpos + dimX v cpos := by
  have main : (save_isotropic_slices_events v cpos false).filterMap writeDirIdx
      = (List.range (dimZ v)).map (fun z => (Dir.xy, z))
        ++ (List.range (dimY v cpos)).map (fun y => (Dir.zx, y))
        ++ (List.range (dimX v cpos)).map (fun x => (Dir.zy, x)) := by
    simp only [save_isotropic_slices_events]
    by_cases h3 : v.ndim = 3
    · rw [if_pos h3]
      simp only [List.filterMap_append, writeDirIdx_dirEvents_false, dimZ, dimY, dimX]
      rw [if_neg (by simp [h3]), if_neg (by simp [h3])]
    · rw [if_neg h3]
      rcases cpos with _ | cp
      · simp only [List.filterMap_append, writeDirIdx_dirEvents_false, dimZ, dimY, dimX]
        rw [if_neg (by simp), if_neg (by simp)]
      · cases cp
        · simp only [List.filterMap_append, writeDirIdx_dirEvents_false, dimZ, dimY, dimX]
          rw [if_pos ⟨h3, trivial⟩, if_pos ⟨h3, trivial⟩]
        · simp only [List.filterMap_append, writeDirIdx_dirEvents_false, dimZ, dimY, dimX]
          rw [if_neg (by simp), if_neg (by simp)]
  refine ⟨main, ?_⟩
  rw [main]
  simp [List.length_append, List.length_map, List.length_range]
  omega

/-- C8: for every export and every `skip_empty`, the progress collaborator
is called exactly once per logical tile, with `done = 1, 2, ..., Z+Y+X` in
order and `total = Z+Y+X` on every call; a tile whose maximum element is 0
is withheld from the sink under `skip_empty` but still counts toward
progress (the write trace under `skip_empty` is exactly the unskipped
write trace filtered by the all-background test). -/
theorem export_progress_monotone_and_skip (v : Tensor ℕ) (cpos : Option CPos)
    (sk : Bool) :
    (save_isotropic_slices_events v cpos sk).filterMap progOf
      = (List.range (dimZ v + dimY v cpos + dimX v cpos)).map
          (fun k => (k + 1, dimZ v + dimY v cpos + dimX v cpos)) ∧
    (save_isotropic_slices_events v cpos sk).filterMap writeRec
      = ((save_isotropic_slices_events v cpos false).filterMap writeRec).filter
          (fun e => !(sk && (tileMax e.2.2 == 0))) := by
  constructor
  · simp only [save_isotropic_slices_events]
    by_cases h3 : v.ndim = 3
    · rw [if_pos h3]
      simp only [List.filterMap_append, progOf_dirEvents, dimZ, dimY, dimX]
      rw [if_neg (by simp [h3]), if_neg (by simp [h3])]
      exact tri_range_map _ _ _
        (fun d => (d, v.shape.getD 0 0 + v.shape.getD 1 0 + v.shape.getD 2 0))
    · rw [if_neg h3]
      rcases cpos with _ | cp
      · simp only [List.filterMap_append, progOf_dirEvents, dimZ, dimY, dimX]
        rw [if_neg (by simp), if_neg (by simp)]
        exact tri_range_map _ _ _
          (fun d => (d, v.shape.getD 0 0 + v.shape.getD 1 0 + v.shape.getD 2 0))
      · cases cp
        · simp only [List.filterMap_append, progOf_dirEvents, dimZ, dimY, dimX]
          rw [if_pos ⟨h3, trivial⟩, if_pos ⟨h3, trivial⟩]
          exact tri_range_map _ _ _
            (fun d => (d, v.shape.getD 0 0 + v.shape.getD 2 0 + v.shape.getD 3 0))
        · simp only [List.filterMap_append, progOf_dirEvents, dimZ, dimY, dimX]
          rw [if_neg (by simp), if_neg (by simp)]
          exact tri_range_map _ _ _
            (fun d => (d, v.shape.getD 0 0 + v.shape.getD 1 0 + v.shape.getD 2 0))
  · simp only [save_isotropic_slices_events]
    by_cases h3 : v.ndim = 3
    · simp only [if_pos h3, List.filterMap_append, writeRec_dirEvents, List.filter_append,
        Bool.false_and, Bool.not_false, List.filter_true]
    · simp only [if_neg h3]
      rcases cpos with _ | cp
      · simp only [List.filterMap_append, writeRec_dirEvents, List.filter_append,
          Bool.false_and, Bool.not_false, List.filter_true]
      · cases cp <;>
          simp only [List.filterMap_append, writeRec_dirEvents, List.filter_append,
            Bool.false_and, Bool.not_false, List.filter_true]

theorem strip_append_of_ends {s sfx : String} (h : pyEndsWith s sfx = true) :
    stripLen s sfx.data.length ++ sfx = s := by
  simp only [pyEndsWith, beq_iff_eq] at h
  cases s with
  | mk sd =>
    cases sfx with
    | mk fd =>
      simp only [stripLen]
      show String.mk (sd.take (sd.length - fd.length) ++ fd) = String.mk sd
      simp only [String.data] at h
      nth_rewrite 2 [h]
      rw [List.take_append_drop]

/-- C10: in labels mode, when the input stem ends with `_cp_masks`, the
output base directory uses the stem with that suffix removed while every
tile filename still uses the full unmodified stem; in image mode, or when
the stem lacks the suffix, the unchanged stem is used for both. -/
theorem stem_suffix_handling (out_dir stem : String) (mode : Mode) (dname : String)
    (i : ℕ) :
    (mode = .labels → pyEndsWith stem cp_mask_sfx = true →
      out_base_stem stem mode ++ cp_mask_sfx = stem ∧
      tile_path out_dir stem mode dname i
        = out_dir ++ "/" ++ stripLen stem cp_mask_sfx.data.length ++ "/" ++ dname ++ "/"
          ++ (stem ++ "_" ++ dname ++ "_" ++ pad4 i ++ ".tif")) ∧
    (mode = .image ∨ pyEndsWith stem cp_mask_sfx = false →
      out_base_stem stem mode = stem ∧
      tile_path out_dir stem mode dname i
        = out_dir ++ "/" ++ stem ++ "/" ++ dname ++ "/"
          ++ (stem ++ "_" ++ dname ++ "_" ++ pad4 i ++ ".tif")) := by
  constructor
  · rintro rfl hend
    have hob : out_base_stem stem .labels = stripLen stem cp_mask_sfx.data.length := by
      unfold out_base_stem
      rw [if_pos hend]
    refine ⟨?_, ?_⟩
    · rw [hob]
      exact strip_append_of_ends hend
    · unfold tile_path tile_file_name
      rw [hob]
  · intro hcase
    have hob : out_base_stem stem mode = stem := by
      cases mode
      · unfold out_base_stem
        rcases hcase with h | h
        · exact absurd h (by decide)
        · rw [if_neg (by simp [h])]
      · rfl
    exact ⟨hob, by unfold tile_path tile_file_name; rw [hob]⟩

theorem stem_suffix_handling_witness :
    out_base_stem ("embryo_cp_masks") Mode.labels ++ cp_mask_sfx = "embryo_cp_masks" ∧
    tile_path ("out") ("embryo_cp_masks") Mode.labels ("xy") 3
      = "out" ++ "/" ++ stripLen ("embryo_cp_masks") cp_mask_sfx.data.length ++ "/"
        ++ "xy" ++ "/" ++ ("embryo_cp_masks" ++ "_" ++ "xy" ++ "_" ++ pad4 3 ++ ".tif") :=
  (stem_suffix_handling ("out") ("embryo_cp_masks") Mode.labels ("xy") 3).1 rfl (by decide)
